import Mathlib

/-!
Verification development for `tutorial_code/embed_square_lattice.py`.

The file embeds, in Lean, the data model and control flow of the function
`embed_square_lattice(sampler, L, try_to_load=True, **kwargs)`:

* the `dimod.BinaryQuadraticModel` built in lines 37-50 (variables `x*L+y`,
  quadratic biases set with `set_quadratic`, which keys biases by the
  unordered pair of variables, overwrites an existing bias, and raises
  `ValueError` when the two variables coincide, per dimod's documented API);
* the cache file name built in line 56 (an f-string with `L` zero-padded to
  width 2);
* the cache-load / fallback-search / save control flow of lines 57-81,
  with the filesystem passed explicitly, the external search procedure and
  `embeddings_to_ndarray` taken as oracle parameters, and Python's
  `UnboundLocalError` modelled for the local variable `embeddings` (which is
  only ever assigned inside the `if try_to_load:` block of the source).
-/

instance {ε α : Type} [DecidableEq ε] [DecidableEq α] : DecidableEq (Except ε α) := fun
  | .error e, .error e' => decidable_of_iff (e = e') (by simp)
  | .error _, .ok _ => isFalse (by simp)
  | .ok _, .error _ => isFalse (by simp)
  | .ok a, .ok a' => decidable_of_iff (a = a') (by simp)

/-- Python exceptions that the modelled code can raise or propagate. -/
inductive PyErr
  | valueError
  | fileNotFoundError
  | unboundLocalError
  | searchError
  deriving DecidableEq, Repr

/-- Model of `dimod.BinaryQuadraticModel(vartype='SPIN')` as far as the
source uses it: an ordered list of integer variables (in `add_variable`
order) and an association list of quadratic biases keyed by unordered
variable pairs. -/
structure Bqm where
  vars : List Nat
  quadratic : List ((Nat × Nat) × Int)
  deriving DecidableEq, Repr

/-- Canonical representative of the unordered pair `{u, v}` used to key a
quadratic bias, reflecting that dimod identifies `(u, v)` with `(v, u)`. -/
def quadKey (u v : Nat) : Nat × Nat := (min u v, max u v)

/-- Set the association-list entry for key `k` to `w`, overwriting an
existing entry (dimod's `set_quadratic` replaces any previous bias). -/
def setEntry : List ((Nat × Nat) × Int) → Nat × Nat → Int → List ((Nat × Nat) × Int)
  | [], k, w => [(k, w)]
  | (k', w') :: rest, k, w =>
    if k' = k then (k, w) :: rest else (k', w') :: setEntry rest k w

/-- Look up the association-list entry for key `k`. -/
def lookupEntry : List ((Nat × Nat) × Int) → Nat × Nat → Option Int
  | [], _ => none
  | (k', w) :: rest, k => if k' = k then some w else lookupEntry rest k

/-- `bqm.set_quadratic(u, v, w)`: raises `ValueError` when `u = v`
(dimod's documented behaviour), otherwise sets the bias of the unordered
pair `{u, v}` to `w`, overwriting any existing bias. -/
def set_quadratic (b : Bqm) (u v : Nat) (w : Int) : Except PyErr Bqm :=
  if u = v then .error .valueError
  else .ok { b with quadratic := setEntry b.quadratic (quadKey u v) w }

/-- `bqm.get_quadratic(u, v)` as a partial lookup (symmetric in `u, v`). -/
def get_quadratic (b : Bqm) (u v : Nat) : Option Int :=
  lookupEntry b.quadratic (quadKey u v)

/-- The variables added by the first double loop (lines 39-41):
`x*L+y` for `x` in `range(L)`, `y` in `range(L)`, in loop order. -/
def gridVars (L : Nat) : List Nat :=
  (List.range L).flatMap fun x => (List.range L).map fun y => x * L + y

/-- The sequence of `set_quadratic(u, v, bias)` calls performed by the
second double loop (lines 43-50), in execution order: each iteration
`(x, y)` first sets the cyclic-direction bias
`(x*L+y, x*L+((y+1) % L))` to `+1` when `(x+y) % 2` is nonzero and `-1`
otherwise, then, when `x < L-1`, sets the bias `(x*L+y, (x+1)*L+y)` to
`+1`. -/
def quadWrites (L : Nat) : List (Nat × Nat × Int) :=
  (List.range L).flatMap fun x => (List.range L).flatMap fun y =>
    (x * L + y, x * L + ((y + 1) % L), if (x + y) % 2 = 1 then (1 : Int) else -1) ::
      (if x < L - 1 then [(x * L + y, (x + 1) * L + y, (1 : Int))] else [])

/-- Lines 37-50 of the source: build the BQM for the `L×L` cylinder.
Fails with `ValueError` exactly when some `set_quadratic` call receives
`u = v`. -/
def buildBqm (L : Nat) : Except PyErr Bqm :=
  (quadWrites L).foldlM (fun b t => set_quadratic b t.1 t.2.1 t.2.2)
    { vars := gridVars L, quadratic := [] }

example : gridVars 2 = [0, 1, 2, 3] := by decide

example :
    buildBqm 2 =
      .ok { vars := [0, 1, 2, 3],
            quadratic := [((0, 1), 1), ((0, 2), 1), ((1, 3), 1), ((2, 3), -1)] } := by
  decide

example : buildBqm 1 = .error .valueError := by decide

/-- Apply a sequence of quadratic-bias writes to an association list, in
order (the pure effect of the `set_quadratic` calls when none fails). -/
def applyWrites (q : List ((Nat × Nat) × Int)) (ws : List (Nat × Nat × Int)) :
    List ((Nat × Nat) × Int) :=
  ws.foldl (fun q t => setEntry q (quadKey t.1 t.2.1) t.2.2) q

/-- The value of the last write in `ws` whose (unordered) key is `k`, if
any: with overwriting semantics this is the bias that survives. -/
def lastWrite : List (Nat × Nat × Int) → (Nat × Nat) → Option Int
  | [], _ => none
  | t :: ws, k =>
    match lastWrite ws k with
    | some w => some w
    | none => if quadKey t.1 t.2.1 = k then some t.2.2 else none

/-- The BQM produced for `L = 2`: the cyclic pair `{0, 1}` is written
twice (by `(x,y) = (0,0)` with bias `-1`, then by `(x,y) = (0,1)` with
bias `+1`, since `(1+1) % 2 = 0`), and likewise `{2, 3}` (ending at `-1`),
so the surviving biases are those of the later writes. -/
def bqm2 : Bqm :=
  ⟨[0, 1, 2, 3], [((0, 1), 1), ((0, 2), 1), ((1, 3), 1), ((2, 3), -1)]⟩

/-- Little-endian decimal digits of `n`, computed with explicit fuel so the
definition is structurally recursive. `digitsRev n` uses fuel `n`. -/
def digitsRevAux : Nat → Nat → List Nat
  | 0, _ => []
  | fuel + 1, n => if n = 0 then [] else n % 10 :: digitsRevAux fuel (n / 10)

/-- Little-endian decimal digits of `n` (empty for `n = 0`). -/
def digitsRev (n : Nat) : List Nat := digitsRevAux n n

/-- Value of a little-endian decimal digit list (used to show that
`digitsRev` is injective). -/
def fromDigits : List Nat → Nat
  | [] => 0
  | d :: ds => d + 10 * fromDigits ds

/-- The decimal numeral of `n` as a list of characters (what Python's
`str`/`%d` formatting produces). -/
def natChars (n : Nat) : List Char :=
  if n = 0 then ['0'] else ((digitsRev n).map Nat.digitChar).reverse

/-- Python's `f'{L:02d}'`: the decimal numeral of `L`, left-padded with
`'0'` to width 2. -/
def pad02 (n : Nat) : List Char :=
  if n < 10 then '0' :: natChars n else natChars n

/-- Line 56 of the source:
`f'cached_embeddings/{solver_name}__L{L:02d}_square_embeddings_cached.txt'`. -/
def cache_filename (solver_name : String) (L : Nat) : String :=
  ⟨"cached_embeddings/".data ++ solver_name.data ++ "__L".data ++ pad02 L ++
    "_square_embeddings_cached.txt".data⟩

example :
    cache_filename "Advantage_system6.4" 4 =
      "cached_embeddings/Advantage_system6.4__L04_square_embeddings_cached.txt" := by
  decide

example :
    cache_filename "chip" 12 =
      "cached_embeddings/chip__L12_square_embeddings_cached.txt" := by
  decide

/-- An embedding table: the integer matrix held by the `embeddings`
ndarray (one row per embedding candidate, one column per logical node). -/
abbrev Table : Type := List (List Int)

/-- Content of a file in the modelled filesystem: either an integer matrix
as written by `np.savetxt(..., fmt='%d')` (which `np.loadtxt(..., dtype=int)`
parses back unchanged), or content that fails to parse as an integer
matrix. -/
inductive FileData
  | intMatrix (m : Table)
  | corrupt
  deriving DecidableEq

/-- The filesystem state threaded through the model: file contents by path
and directory existence by path. -/
structure FS where
  files : String → Option FileData
  dirs : String → Bool

/-- Observable interactions of one call with its collaborators: the paths
passed to `np.loadtxt`, the `(timeout, raster_breadth)` arguments of each
`raster_embedding_search` invocation, and the `node_order` argument of each
`embeddings_to_ndarray` invocation. -/
structure CallLog where
  reads : List String
  searches : List (Nat × Nat)
  nodeOrders : List (List Nat)

/-- The empty interaction log. -/
def noLog : CallLog := ⟨[], [], []⟩

/-- The sampler argument, as far as the source uses it:
`sampler.properties['chip_id']` and `sampler.to_networkx_graph()`. -/
structure Sampler (Topo : Type) where
  chip_id : String
  topo : Topo

/-- `np.loadtxt(path, dtype=int)`: `FileNotFoundError` when the file is
absent, `ValueError` when its content fails to parse as an integer matrix,
otherwise the parsed matrix. -/
def loadtxt (fs : FS) (path : String) : Except PyErr Table :=
  match fs.files path with
  | none => .error .fileNotFoundError
  | some .corrupt => .error .valueError
  | some (.intMatrix m) => .ok m

/-- `np.savetxt(path, m, fmt='%d')`: write `m` at `path`, overwriting. -/
def savetxt (fs : FS) (path : String) (m : Table) : FS :=
  { fs with files := fun p => if p = path then some (.intMatrix m) else fs.files p }

/-- `os.makedirs(dir, exist_ok=True)`: idempotent directory creation. -/
def makedirs (fs : FS) (dir : String) : FS :=
  { fs with dirs := fun d => if d = dir then true else fs.dirs d }

/-- Insert `a` into an already ascending list, keeping it ascending. -/
def insertSorted (a : Nat) : List Nat → List Nat
  | [] => [a]
  | b :: l => if a ≤ b then a :: b :: l else b :: insertSorted a l

/-- Python's `sorted` on a list of integers (ascending insertion sort). -/
def pysorted (l : List Nat) : List Nat := l.foldr insertSorted []

example : pysorted [3, 1, 2, 0] = [0, 1, 2, 3] := by decide

/-- `sorted(G.nodes())` where `G = dimod.to_networkx_graph(bqm)`: the
variables of the BQM in increasing order. -/
def sortedNodes (b : Bqm) : List Nat := pysorted b.vars

/-- Lines 78-81 of the source, the code shared by every path that falls
through the `if try_to_load:` block: `os.makedirs('cached_embeddings/',
exist_ok=True)`, then `np.savetxt(cache_filename, embeddings, fmt='%d')`,
then `return embeddings, bqm`. The Python local `embeddings` is modelled by
an `Option Table`: it is only ever assigned inside the `if try_to_load:`
block, so when the block was skipped it is still unbound (`none`) and the
reference to it in the `np.savetxt` call raises `UnboundLocalError` —
after `os.makedirs` has already run. -/
def saveAndReturn (bqm : Bqm) (cf : String) (embeddings : Option Table)
    (fs : FS) : Except PyErr (Table × Bqm) × FS :=
  let fs1 := makedirs fs "cached_embeddings/"
  match embeddings with
  | none => (.error .unboundLocalError, fs1)
  | some e => (.ok (e, bqm), savetxt fs1 cf e)

/-- Shallow embedding of `embed_square_lattice(sampler, L, try_to_load,
**kwargs)` (lines 26-81 of the source). The external collaborators are
oracle parameters: `search` models `raster_embedding_search(S=G, T=A,
timeout, raster_breadth)` (an `Except` since its failures propagate
uncaught), and `toNdarray` models `embeddings_to_ndarray(embs,
node_order)`. The pure lower-bound estimator call of lines 68-69 only
feeds a `print` and has no effect on state or result, so it is not
modelled. `kwargs` is the `**kwargs` parameter, which the body never
reads. Returns the Python result (or the exception that propagates), the
final filesystem, and the interaction log. -/
def embed_square_lattice {Topo RawEmb Kw : Type}
    (search : Bqm → Topo → Nat → Nat → Except Unit RawEmb)
    (toNdarray : RawEmb → List Nat → Table)
    (sampler : Sampler Topo) (L : Nat) (try_to_load : Bool) (kwargs : Kw)
    (fs : FS) : Except PyErr (Table × Bqm) × FS × CallLog :=
  match buildBqm L with
  | .error e => (.error e, fs, noLog)
  | .ok bqm =>
    let cf := cache_filename sampler.chip_id L
    if try_to_load then
      match loadtxt fs cf with
      | .ok embeddings =>
        -- line 62: `return embeddings, bqm` — no search, no write
        (.ok (embeddings, bqm), fs, ⟨[cf], [], []⟩)
      | .error _ =>
        -- lines 63-66: the `except (ValueError, FileNotFoundError)` clause
        -- swallows the load failure; lines 68-76 then run the search
        match search bqm sampler.topo 10 6 with
        | .error _ => (.error .searchError, fs, ⟨[cf], [(10, 6)], []⟩)
        | .ok raw =>
          let embeddings := toNdarray raw (sortedNodes bqm)
          let (r, fs') := saveAndReturn bqm cf (some embeddings) fs
          (r, fs', ⟨[cf], [(10, 6)], [sortedNodes bqm]⟩)
    else
      -- `try_to_load=False` skips the whole block, leaving `embeddings`
      -- unbound when control reaches lines 78-79
      let (r, fs') := saveAndReturn bqm cf none fs
      (r, fs', noLog)

/-- Node order that every fallback computation for lattice size `L` uses:
the sorted variables of the logical graph built from `L` (empty when graph
construction itself fails, in which case no fallback ever runs). -/
def fallbackNodeOrder (L : Nat) : List Nat :=
  match buildBqm L with
  | .ok b => sortedNodes b
  | .error _ => []

/-- Concrete fixtures used by the witness theorems below. -/
def fs0 : FS := ⟨fun _ => none, fun _ => false⟩

def sampler0 : Sampler Unit := ⟨"chip", ()⟩

def searchOk : Bqm → Unit → Nat → Nat → Except Unit Unit := fun _ _ _ _ => .ok ()

def searchFail : Bqm → Unit → Nat → Nat → Except Unit Unit := fun _ _ _ _ => .error ()

def toNd0 : Unit → List Nat → Table := fun _ ns => [ns.map Int.ofNat]

def fsHit : FS :=
  ⟨fun p => if p = cache_filename "chip" 2 then some (.intMatrix [[5, 6, 7, 8]]) else none,
   fun _ => false⟩

def fsCorrupt : FS :=
  ⟨fun p => if p = cache_filename "chip" 2 then some .corrupt else none,
   fun _ => false⟩

/-- Helper: in any call, every `node_order` passed to
`embeddings_to_ndarray` is the sorted node list determined by `L` alone. -/
theorem nodeOrders_fixed {Topo RawEmb Kw : Type}
    (search : Bqm → Topo → Nat → Nat → Except Unit RawEmb)
    (toNdarray : RawEmb → List Nat → Table)
    (sampler : Sampler Topo) (L : Nat) (try_to_load : Bool) (kwargs : Kw)
    (fs : FS) :
    ∀ no ∈ (embed_square_lattice search toNdarray sampler L try_to_load
        kwargs fs).2.2.nodeOrders, no = fallbackNodeOrder L := by
  intro no hno
  unfold embed_square_lattice at hno
  cases hb : buildBqm L with
  | error e => rw [hb] at hno; simp [noLog] at hno
  | ok bqm =>
    rw [hb] at hno
    cases try_to_load with
    | false => simp [saveAndReturn, noLog] at hno
    | true =>
      cases hl : loadtxt fs (cache_filename sampler.chip_id L) with
      | ok m => simp [hl] at hno
      | error e' =>
        cases hs : search bqm sampler.topo 10 6 with
        | error e'' => simp [hl, hs] at hno
        | ok raw =>
          simp [hl, hs, saveAndReturn] at hno
          simp [hno, fallbackNodeOrder, hb]

/-- C5: with `try_to_load=True` and a cache file that parses as an integer
matrix, the call returns the parsed table together with the freshly built
logical graph, performs no search, and leaves the filesystem (files and
directories) exactly unchanged: only the cache-read path executes. -/
theorem C5_cache_hit_returns_immediately {Topo RawEmb Kw : Type}
    (search : Bqm → Topo → Nat → Nat → Except Unit RawEmb)
    (toNdarray : RawEmb → List Nat → Table)
    (sampler : Sampler Topo) (L : Nat) (kwargs : Kw) (fs : FS)
    (bqm : Bqm) (m : Table)
    (hb : buildBqm L = .ok bqm)
    (hf : fs.files (cache_filename sampler.chip_id L) = some (.intMatrix m)) :
    embed_square_lattice search toNdarray sampler L true kwargs fs =
      (.ok (m, bqm), fs, ⟨[cache_filename sampler.chip_id L], [], []⟩) := by
  simp [embed_square_lattice, hb, loadtxt, hf]

theorem C5_witness :
    embed_square_lattice searchOk toNd0 sampler0 2 true (0 : Nat) fsHit =
      (.ok ([[5, 6, 7, 8]], bqm2), fsHit,
        ⟨[cache_filename "chip" 2], [], []⟩) :=
  C5_cache_hit_returns_immediately searchOk toNd0 sampler0 2 0 fsHit bqm2
    [[5, 6, 7, 8]] (by decide) (by decide)

/-- C4: with `try_to_load=True` and a cache file that is absent or fails to
parse as an integer matrix, the load failure is not propagated: the call
falls back to the search, overwrites the computed path with the freshly
computed table, and returns that table (built over the sorted node order)
with the logical graph. -/
theorem C4_load_failure_falls_back {Topo RawEmb Kw : Type}
    (search : Bqm → Topo → Nat → Nat → Except Unit RawEmb)
    (toNdarray : RawEmb → List Nat → Table)
    (sampler : Sampler Topo) (L : Nat) (kwargs : Kw) (fs : FS)
    (bqm : Bqm) (raw : RawEmb)
    (hb : buildBqm L = .ok bqm)
    (hf : fs.files (cache_filename sampler.chip_id L) = none ∨
          fs.files (cache_filename sampler.chip_id L) = some .corrupt)
    (hs : search bqm sampler.topo 10 6 = .ok raw) :
    (embed_square_lattice search toNdarray sampler L true kwargs fs).1 =
      .ok (toNdarray raw (sortedNodes bqm), bqm) ∧
    (embed_square_lattice search toNdarray sampler L true kwargs fs).2.1.files
        (cache_filename sampler.chip_id L) =
      some (.intMatrix (toNdarray raw (sortedNodes bqm))) := by
  rcases hf with hf | hf <;>
    simp [embed_square_lattice, hb, loadtxt, hf, hs, saveAndReturn, savetxt,
      makedirs]

theorem C4_witness :
    (embed_square_lattice searchOk toNd0 sampler0 2 true (0 : Nat) fsCorrupt).1 =
      .ok (toNd0 () (sortedNodes bqm2), bqm2) ∧
    (embed_square_lattice searchOk toNd0 sampler0 2 true (0 : Nat) fsCorrupt).2.1.files
        (cache_filename "chip" 2) =
      some (.intMatrix (toNd0 () (sortedNodes bqm2))) :=
  C4_load_failure_falls_back searchOk toNd0 sampler0 2 0 fsCorrupt bqm2 ()
    (by decide) (Or.inr (by decide)) (by decide)

/-- C8: when the fallback search itself fails, the failure propagates
uncaught: the call ends in the search error, exactly one search was
attempted (with the single budget `timeout=10`, `raster_breadth=6`; no
retry, no alternate raster breadth), and the filesystem is exactly
unchanged — in particular no cache file is written. -/
theorem C8_search_failure_propagates {Topo RawEmb Kw : Type}
    (search : Bqm → Topo → Nat → Nat → Except Unit RawEmb)
    (toNdarray : RawEmb → List Nat → Table)
    (sampler : Sampler Topo) (L : Nat) (kwargs : Kw) (fs : FS)
    (bqm : Bqm) (e : Unit)
    (hb : buildBqm L = .ok bqm)
    (hf : fs.files (cache_filename sampler.chip_id L) = none ∨
          fs.files (cache_filename sampler.chip_id L) = some .corrupt)
    (hs : search bqm sampler.topo 10 6 = .error e) :
    embed_square_lattice search toNdarray sampler L true kwargs fs =
      (.error .searchError, fs, ⟨[cache_filename sampler.chip_id L], [(10, 6)], []⟩) := by
  rcases hf with hf | hf <;> simp [embed_square_lattice, hb, loadtxt, hf, hs]

theorem C8_witness :
    embed_square_lattice searchFail toNd0 sampler0 2 true (0 : Nat) fs0 =
      (.error .searchError, fs0, ⟨[cache_filename "chip" 2], [(10, 6)], []⟩) :=
  C8_search_failure_propagates searchFail toNd0 sampler0 2 0 fs0 bqm2 ()
    (by decide) (Or.inl (by decide)) (by decide)

/-- C1 (code bug): with `try_to_load=False` the source skips not only the
cache read but also the fallback search, because lines 68-76 are inside
the `if try_to_load:` block; control then reaches
`np.savetxt(cache_filename, embeddings, fmt='%d')` with the local
`embeddings` never assigned, so the call raises `UnboundLocalError` after
`os.makedirs`: no search is attempted, nothing is returned, and no file is
written (only the cache directory is created). -/
theorem C1_no_cache_mode_raises_unbound_local {Topo RawEmb Kw : Type}
    (search : Bqm → Topo → Nat → Nat → Except Unit RawEmb)
    (toNdarray : RawEmb → List Nat → Table)
    (sampler : Sampler Topo) (L : Nat) (kwargs : Kw) (fs : FS) (bqm : Bqm)
    (hb : buildBqm L = .ok bqm) :
    embed_square_lattice search toNdarray sampler L false kwargs fs =
      (.error .unboundLocalError, makedirs fs "cached_embeddings/", noLog) ∧
    (makedirs fs "cached_embeddings/").files = fs.files := by
  exact ⟨by simp [embed_square_lattice, hb, saveAndReturn], rfl⟩

theorem C1_witness :
    embed_square_lattice searchOk toNd0 sampler0 2 false (0 : Nat) fs0 =
      (.error .unboundLocalError, makedirs fs0 "cached_embeddings/", noLog) ∧
    (makedirs fs0 "cached_embeddings/").files = fs0.files :=
  C1_no_cache_mode_raises_unbound_local searchOk toNd0 sampler0 2 0 fs0 bqm2
    (by decide)

/-- C3 (code bug): a call with `try_to_load=False` never completes
successfully — it always raises `UnboundLocalError` — so the premise of
the cache round-trip ("after a call with `try_to_load=False` completes
successfully") is unsatisfiable on this code, and such a call persists no
table for a later `try_to_load=True` call to read. -/
theorem C3_no_cache_call_never_completes {Topo RawEmb Kw : Type}
    (search : Bqm → Topo → Nat → Nat → Except Unit RawEmb)
    (toNdarray : RawEmb → List Nat → Table)
    (sampler : Sampler Topo) (L : Nat) (kwargs : Kw) (fs : FS) (bqm : Bqm)
    (hb : buildBqm L = .ok bqm) :
    (∀ t b, (embed_square_lattice search toNdarray sampler L false kwargs fs).1 ≠
        .ok (t, b)) ∧
    (embed_square_lattice search toNdarray sampler L false kwargs fs).2.1.files =
      fs.files := by
  constructor
  · intro t b
    simp [embed_square_lattice, hb, saveAndReturn]
  · simp [embed_square_lattice, hb, saveAndReturn, makedirs]

theorem C3_witness :
    ((embed_square_lattice searchOk toNd0 sampler0 2 false (0 : Nat) fs0).1 ≠
      .ok ([[0, 1, 2, 3]], bqm2)) ∧
    (embed_square_lattice searchOk toNd0 sampler0 2 false (0 : Nat) fs0).2.1.files =
      fs0.files :=
  ⟨(C3_no_cache_call_never_completes searchOk toNd0 sampler0 2 0 fs0 bqm2
      (by decide)).1 [[0, 1, 2, 3]] bqm2,
   (C3_no_cache_call_never_completes searchOk toNd0 sampler0 2 0 fs0 bqm2
      (by decide)).2⟩

/-- C9: the extra keyword arguments are ignored — two calls that differ
only in them have identical result, filesystem effect and interaction log
— and every search the function performs uses the hard-coded budget
`timeout=10`, `raster_breadth=6`. -/
theorem C9_kwargs_ignored_and_budget_hardcoded {Topo RawEmb Kw : Type}
    (search : Bqm → Topo → Nat → Nat → Except Unit RawEmb)
    (toNdarray : RawEmb → List Nat → Table)
    (sampler : Sampler Topo) (L : Nat) (try_to_load : Bool) (fs : FS) :
    (∀ k1 k2 : Kw,
      embed_square_lattice search toNdarray sampler L try_to_load k1 fs =
        embed_square_lattice search toNdarray sampler L try_to_load k2 fs) ∧
    (∀ kwargs : Kw,
      ∀ c ∈ (embed_square_lattice search toNdarray sampler L try_to_load
          kwargs fs).2.2.searches, c = (10, 6)) := by
  refine ⟨fun k1 k2 => rfl, fun kwargs c hc => ?_⟩
  unfold embed_square_lattice at hc
  cases hb : buildBqm L with
  | error e => rw [hb] at hc; simp [noLog] at hc
  | ok bqm =>
    rw [hb] at hc
    cases try_to_load with
    | false => simp [saveAndReturn, noLog] at hc
    | true =>
      cases hl : loadtxt fs (cache_filename sampler.chip_id L) with
      | ok m => simp [hl] at hc
      | error e' =>
        cases hs : search bqm sampler.topo 10 6 with
        | error e'' => simp [hl, hs] at hc; exact hc
        | ok raw =>
          simp [hl, hs, saveAndReturn] at hc
          exact hc

theorem C9_witness :
    (embed_square_lattice searchFail toNd0 sampler0 2 true (0 : Nat) fs0 =
      embed_square_lattice searchFail toNd0 sampler0 2 true (1 : Nat) fs0) ∧
    ((10, 6) ∈ (embed_square_lattice searchFail toNd0 sampler0 2 true (0 : Nat)
        fs0).2.2.searches) ∧
    ((10, 6) = ((10 : Nat), (6 : Nat))) :=
  ⟨(C9_kwargs_ignored_and_budget_hardcoded searchFail toNd0 sampler0 2 true
      fs0).1 0 1,
   by decide,
   (C9_kwargs_ignored_and_budget_hardcoded searchFail toNd0 sampler0 2 true
      fs0).2 0 (10, 6) (by decide)⟩

/-- C10: for `L=1` every node's cyclic neighbour is itself, so
`set_quadratic` is called with `u = v` and raises `ValueError` during
graph construction, before any cache read, search, directory creation or
write; the call never succeeds even though `L=1` is a positive lattice
size. -/
theorem C10_L1_always_fails_before_io {Topo RawEmb Kw : Type}
    (search : Bqm → Topo → Nat → Nat → Except Unit RawEmb)
    (toNdarray : RawEmb → List Nat → Table)
    (sampler : Sampler Topo) (try_to_load : Bool) (kwargs : Kw) (fs : FS) :
    embed_square_lattice search toNdarray sampler 1 try_to_load kwargs fs =
      (.error .valueError, fs, noLog) := by
  have h : buildBqm 1 = .error .valueError := by decide
  simp [embed_square_lattice, h]

/-- C6: every fallback computation converts the search result using the
node order `sorted(G.nodes())`, a function of `L` alone, so any two
fallback computations for the same `L` — whatever their cache states,
samplers, oracles or flags — pass the same node order to
`embeddings_to_ndarray`, and column `j` refers to the same logical node in
both resulting tables. -/
theorem C6_fallback_node_order_stable {T1 R1 K1 T2 R2 K2 : Type}
    (search1 : Bqm → T1 → Nat → Nat → Except Unit R1)
    (toNd1 : R1 → List Nat → Table) (sampler1 : Sampler T1)
    (ttl1 : Bool) (k1 : K1) (fs1 : FS)
    (search2 : Bqm → T2 → Nat → Nat → Except Unit R2)
    (toNd2 : R2 → List Nat → Table) (sampler2 : Sampler T2)
    (ttl2 : Bool) (k2 : K2) (fs2 : FS)
    (L : Nat) (no1 no2 : List Nat)
    (h1 : no1 ∈ (embed_square_lattice search1 toNd1 sampler1 L ttl1 k1
        fs1).2.2.nodeOrders)
    (h2 : no2 ∈ (embed_square_lattice search2 toNd2 sampler2 L ttl2 k2
        fs2).2.2.nodeOrders) :
    no1 = no2 ∧ no1 = fallbackNodeOrder L := by
  have e1 := nodeOrders_fixed search1 toNd1 sampler1 L ttl1 k1 fs1 no1 h1
  have e2 := nodeOrders_fixed search2 toNd2 sampler2 L ttl2 k2 fs2 no2 h2
  exact ⟨e1.trans e2.symm, e1⟩

theorem C6_witness :
    (([0, 1, 2, 3] : List Nat) ∈ (embed_square_lattice searchOk toNd0 sampler0
        2 true (0 : Nat) fs0).2.2.nodeOrders) ∧
    (([0, 1, 2, 3] : List Nat) ∈ (embed_square_lattice searchOk toNd0 sampler0
        2 true (5 : Nat) fsCorrupt).2.2.nodeOrders) ∧
    (([0, 1, 2, 3] : List Nat) = ([0, 1, 2, 3] : List Nat) ∧
      ([0, 1, 2, 3] : List Nat) = fallbackNodeOrder 2) :=
  ⟨by decide, by decide,
    C6_fallback_node_order_stable searchOk toNd0 sampler0 true 0 fs0
      searchOk toNd0 sampler0 true 5 fsCorrupt 2 [0, 1, 2, 3] [0, 1, 2, 3]
      (by decide) (by decide)⟩

theorem digitsRevAux_zero (fuel : Nat) : digitsRevAux fuel 0 = [] := by
  cases fuel <;> simp [digitsRevAux]

theorem mem_digitsRevAux_lt :
    ∀ fuel n d, d ∈ digitsRevAux fuel n → d < 10 := by
  intro fuel
  induction fuel with
  | zero => intro n d h; simp [digitsRevAux] at h
  | succ f ih =>
    intro n d h
    by_cases hn : n = 0
    · simp [digitsRevAux, hn] at h
    · simp only [digitsRevAux, if_neg hn, List.mem_cons] at h
      rcases h with h | h
      · omega
      · exact ih _ _ h

theorem fromDigits_digitsRevAux :
    ∀ fuel n, n ≤ fuel → fromDigits (digitsRevAux fuel n) = n := by
  intro fuel
  induction fuel with
  | zero =>
    intro n h
    have : n = 0 := by omega
    simp [this, digitsRevAux, fromDigits]
  | succ f ih =>
    intro n h
    by_cases hn : n = 0
    · simp [digitsRevAux, hn, fromDigits]
    · have hlt : n / 10 < n := Nat.div_lt_self (Nat.pos_of_ne_zero hn) (by norm_num)
      have h10 : n / 10 ≤ f := by omega
      simp only [digitsRevAux, if_neg hn, fromDigits, ih _ h10]
      omega

theorem digitsRev_inj {m n : Nat} (h : digitsRev m = digitsRev n) : m = n := by
  have hm : fromDigits (digitsRev m) = m := fromDigits_digitsRevAux m m le_rfl
  have hn : fromDigits (digitsRev n) = n := fromDigits_digitsRevAux n n le_rfl
  rw [← hm, ← hn, h]

theorem digitsRevAux_ne_nil (fuel n : Nat) (hn : n ≠ 0) (h : n ≤ fuel) :
    digitsRevAux fuel n ≠ [] := by
  cases fuel with
  | zero => omega
  | succ f => simp [digitsRevAux, hn]

theorem getLast_digitsRevAux_ne_zero :
    ∀ fuel n, n ≠ 0 → n ≤ fuel →
      ∀ d, (digitsRevAux fuel n).getLast? = some d → d ≠ 0 := by
  intro fuel
  induction fuel with
  | zero => intro n hn h; omega
  | succ f ih =>
    intro n hn h d hd
    simp only [digitsRevAux, if_neg hn] at hd
    by_cases h10 : n / 10 = 0
    · rw [h10, digitsRevAux_zero] at hd
      simp [List.getLast?] at hd
      have : n < 10 := by omega
      omega
    · have hlt : n / 10 < n := Nat.div_lt_self (Nat.pos_of_ne_zero hn) (by norm_num)
      have hne := digitsRevAux_ne_nil f (n / 10) h10 (by omega)
      cases hg : digitsRevAux f (n / 10) with
      | nil => exact absurd hg hne
      | cons a l =>
        rw [hg, List.getLast?_cons_cons] at hd
        rw [hg] at hne
        exact ih (n / 10) h10 (by omega) d (by rw [hg]; exact hd)

theorem digitChar_ne_L : ∀ d, d < 10 → Nat.digitChar d ≠ 'L' := by decide

theorem digitChar_inj10 :
    ∀ a, a < 10 → ∀ b, b < 10 → Nat.digitChar a = Nat.digitChar b → a = b := by
  decide

theorem digitChar_ne_zero_char :
    ∀ d, d < 10 → d ≠ 0 → Nat.digitChar d ≠ '0' := by decide

theorem mem_natChars_ne_L : ∀ n c, c ∈ natChars n → c ≠ 'L' := by
  intro n c hc
  by_cases hn : n = 0
  · simp [natChars, hn] at hc
    simp [hc]
  · simp only [natChars, if_neg hn, List.mem_reverse, List.mem_map] at hc
    obtain ⟨d, hd, rfl⟩ := hc
    exact digitChar_ne_L d (mem_digitsRevAux_lt n n d hd)

theorem natChars_head_ne_zero :
    ∀ n, n ≠ 0 → ∀ c, (natChars n).head? = some c → c ≠ '0' := by
  intro n hn c hc
  simp only [natChars, if_neg hn, List.head?_reverse, List.getLast?_map] at hc
  cases hg : (digitsRev n).getLast? with
  | none =>
    rw [List.getLast?_eq_none_iff] at hg
    exact absurd hg (digitsRevAux_ne_nil n n hn le_rfl)
  | some d =>
    rw [hg] at hc
    simp at hc
    have hd0 : d ≠ 0 := getLast_digitsRevAux_ne_zero n n hn le_rfl d hg
    have hdm : d ∈ digitsRev n := List.mem_of_mem_getLast? (by simp [hg])
    have hd10 : d < 10 := mem_digitsRevAux_lt n n d hdm
    rw [← hc]
    exact digitChar_ne_zero_char d hd10 hd0

theorem map_digitChar_inj :
    ∀ l1 l2 : List Nat, (∀ d ∈ l1, d < 10) → (∀ d ∈ l2, d < 10) →
      l1.map Nat.digitChar = l2.map Nat.digitChar → l1 = l2 := by
  intro l1
  induction l1 with
  | nil => intro l2 _ _ h; cases l2 <;> simp_all
  | cons a l ih =>
    intro l2 h1 h2 h
    cases l2 with
    | nil => simp at h
    | cons b l2' =>
      simp only [List.map_cons, List.cons.injEq] at h
      have hab := digitChar_inj10 a (h1 a (by simp)) b (h2 b (by simp)) h.1
      have := ih l2' (fun d hd => h1 d (by simp [hd])) (fun d hd => h2 d (by simp [hd])) h.2
      rw [hab, this]

theorem natChars_inj : ∀ m n, natChars m = natChars n → m = n := by
  intro m n h
  by_cases hm : m = 0 <;> by_cases hn : n = 0
  · omega
  · exfalso
    have hh := congrArg List.head? h
    simp only [natChars, if_pos hm] at hh
    exact natChars_head_ne_zero n hn '0' hh.symm rfl
  · exfalso
    have hh := congrArg List.head? h
    simp only [natChars, if_pos hn] at hh
    exact natChars_head_ne_zero m hm '0' hh rfl
  · simp only [natChars, if_neg hm, if_neg hn, List.reverse_inj] at h
    have hd := map_digitChar_inj (digitsRev m) (digitsRev n)
      (fun d hd => mem_digitsRevAux_lt m m d hd)
      (fun d hd => mem_digitsRevAux_lt n n d hd) h
    exact digitsRev_inj hd

theorem mem_pad02_ne_L : ∀ n c, c ∈ pad02 n → c ≠ 'L' := by
  intro n c hc
  by_cases h : n < 10
  · simp only [pad02, if_pos h, List.mem_cons] at hc
    rcases hc with hc | hc
    · simp [hc]
    · exact mem_natChars_ne_L n c hc
  · simp only [pad02, if_neg h] at hc
    exact mem_natChars_ne_L n c hc

theorem pad02_inj : ∀ m n, pad02 m = pad02 n → m = n := by
  intro m n h
  by_cases hm : m < 10 <;> by_cases hn : n < 10
  · simp only [pad02, if_pos hm, if_pos hn, List.cons.injEq] at h
    exact natChars_inj m n h.2
  · exfalso
    simp only [pad02, if_pos hm, if_neg hn] at h
    have hh := congrArg List.head? h
    simp only [List.head?_cons] at hh
    exact natChars_head_ne_zero n (by omega) '0' hh.symm rfl
  · exfalso
    simp only [pad02, if_neg hm, if_pos hn] at h
    have hh := congrArg List.head? h
    simp only [List.head?_cons] at hh
    exact natChars_head_ne_zero m (by omega) '0' hh rfl
  · simp only [pad02, if_neg hm, if_neg hn] at h
    exact natChars_inj m n h

theorem sep_inj :
    ∀ (a1 t1 a2 t2 : List Char), (∀ c ∈ a1, c ≠ 'L') → (∀ c ∈ a2, c ≠ 'L') →
      a1 ++ 'L' :: t1 = a2 ++ 'L' :: t2 → a1 = a2 ∧ t1 = t2 := by
  intro a1
  induction a1 with
  | nil =>
    intro t1 a2 t2 _ h2 h
    cases a2 with
    | nil => simp_all
    | cons c a2' =>
      exfalso
      simp only [List.nil_append, List.cons_append, List.cons.injEq] at h
      exact h2 c (by simp) h.1.symm
  | cons c a1' ih =>
    intro t1 a2 t2 h1 h2 h
    cases a2 with
    | nil =>
      exfalso
      simp only [List.nil_append, List.cons_append, List.cons.injEq] at h
      exact h1 c (by simp) h.1
    | cons c2 a2' =>
      simp only [List.cons_append, List.cons.injEq] at h
      have hr := ih t1 a2' t2 (fun x hx => h1 x (by simp [hx]))
        (fun x hx => h2 x (by simp [hx])) h.2
      exact ⟨by rw [h.1, hr.1], hr.2⟩

/-- Helper: every path handed to `np.loadtxt` during a call is the cache
path of that call's own key. -/
theorem reads_only_key {Topo RawEmb Kw : Type}
    (search : Bqm → Topo → Nat → Nat → Except Unit RawEmb)
    (toNdarray : RawEmb → List Nat → Table)
    (sampler : Sampler Topo) (L : Nat) (try_to_load : Bool) (kwargs : Kw)
    (fs : FS) :
    ∀ p ∈ (embed_square_lattice search toNdarray sampler L try_to_load
        kwargs fs).2.2.reads, p = cache_filename sampler.chip_id L := by
  intro p hp
  unfold embed_square_lattice at hp
  cases hb : buildBqm L with
  | error e => rw [hb] at hp; simp [noLog] at hp
  | ok bqm =>
    rw [hb] at hp
    cases try_to_load with
    | false => simp [saveAndReturn, noLog] at hp
    | true =>
      cases hl : loadtxt fs (cache_filename sampler.chip_id L) with
      | ok m => simp [hl] at hp; exact hp
      | error e' =>
        cases hs : search bqm sampler.topo 10 6 with
        | error e'' => simp [hl, hs] at hp; exact hp
        | ok raw => simp [hl, hs, saveAndReturn] at hp; exact hp

/-- Helper: a call leaves every file other than the one at its own cache
path untouched. -/
theorem writes_only_key {Topo RawEmb Kw : Type}
    (search : Bqm → Topo → Nat → Nat → Except Unit RawEmb)
    (toNdarray : RawEmb → List Nat → Table)
    (sampler : Sampler Topo) (L : Nat) (try_to_load : Bool) (kwargs : Kw)
    (fs : FS) :
    ∀ p, p ≠ cache_filename sampler.chip_id L →
      (embed_square_lattice search toNdarray sampler L try_to_load
        kwargs fs).2.1.files p = fs.files p := by
  intro p hp
  unfold embed_square_lattice
  cases hb : buildBqm L with
  | error e => rfl
  | ok bqm =>
    cases try_to_load with
    | false => simp [saveAndReturn, makedirs]
    | true =>
      cases hl : loadtxt fs (cache_filename sampler.chip_id L) with
      | ok m => simp [hl]
      | error e' =>
        cases hs : search bqm sampler.topo 10 6 with
        | error e'' => simp [hl, hs]
        | ok raw => simp [hl, hs, saveAndReturn, savetxt, makedirs, hp]

/-- C7: the cache path is exactly
`cached_embeddings/<topology_id>__L<LL>_square_embeddings_cached.txt` with
`L` zero-padded to width 2; the map from `(topology id, L)` to path is
injective; and a call only ever reads its own key's path and only ever
writes (at most) its own key's path, so distinct keys never touch each
other's files. -/
theorem C7_cache_key_format_and_isolation :
    (cache_filename "Advantage_system6.4" 4 =
      "cached_embeddings/Advantage_system6.4__L04_square_embeddings_cached.txt") ∧
    (∀ (s1 : String) (L1 : Nat) (s2 : String) (L2 : Nat),
      cache_filename s1 L1 = cache_filename s2 L2 → s1 = s2 ∧ L1 = L2) ∧
    (∀ {Topo RawEmb Kw : Type}
      (search : Bqm → Topo → Nat → Nat → Except Unit RawEmb)
      (toNdarray : RawEmb → List Nat → Table)
      (sampler : Sampler Topo) (L : Nat) (try_to_load : Bool) (kwargs : Kw)
      (fs : FS),
      (∀ p ∈ (embed_square_lattice search toNdarray sampler L try_to_load
          kwargs fs).2.2.reads, p = cache_filename sampler.chip_id L) ∧
      (∀ p, p ≠ cache_filename sampler.chip_id L →
        (embed_square_lattice search toNdarray sampler L try_to_load
          kwargs fs).2.1.files p = fs.files p)) := by
  refine ⟨by decide, ?_, ?_⟩
  · intro s1 L1 s2 L2 h
    have hd := congrArg String.data h
    simp only [cache_filename] at hd
    have hr := congrArg List.reverse hd
    simp only [List.reverse_append, List.append_assoc] at hr
    have h2 := List.append_cancel_left hr
    have hmid : ("__L".data).reverse = ['L', '_', '_'] := rfl
    rw [hmid] at h2
    simp only [List.cons_append, List.nil_append] at h2
    have hsep := sep_inj (pad02 L1).reverse _ (pad02 L2).reverse _
      (fun c hc => mem_pad02_ne_L L1 c (List.mem_reverse.mp hc))
      (fun c hc => mem_pad02_ne_L L2 c (List.mem_reverse.mp hc)) h2
    have hL : L1 = L2 := pad02_inj L1 L2 (List.reverse_inj.mp hsep.1)
    have hrest := hsep.2
    simp only [List.cons.injEq, true_and] at hrest
    have hs : s1.data.reverse = s2.data.reverse := List.append_cancel_right hrest
    exact ⟨String.ext (List.reverse_inj.mp hs), hL⟩
  · intro Topo RawEmb Kw search toNdarray sampler L try_to_load kwargs fs
    exact ⟨reads_only_key search toNdarray sampler L try_to_load kwargs fs,
      writes_only_key search toNdarray sampler L try_to_load kwargs fs⟩

theorem C7_witness :
    ("chipA" = "chipA" ∧ (4 : Nat) = 4) ∧
    ((embed_square_lattice searchOk toNd0 sampler0 2 true (0 : Nat)
        fs0).2.1.files "unrelated_path" = fs0.files "unrelated_path") :=
  ⟨C7_cache_key_format_and_isolation.2.1 "chipA" 4 "chipA" 4 rfl,
   (C7_cache_key_format_and_isolation.2.2 searchOk toNd0 sampler0 2 true 0
      fs0).2 "unrelated_path" (by decide)⟩

theorem lookup_setEntry :
    ∀ (q : List ((Nat × Nat) × Int)) (k : Nat × Nat) (w : Int) (k' : Nat × Nat),
      lookupEntry (setEntry q k w) k' =
        if k = k' then some w else lookupEntry q k' := by
  intro q
  induction q with
  | nil => intro k w k'; simp [setEntry, lookupEntry]
  | cons e q ih =>
    rcases e with ⟨ek, ew⟩
    intro k w k'
    by_cases h1 : ek = k
    · rw [setEntry, if_pos h1]
      by_cases h2 : k = k'
      · simp [lookupEntry, h2]
      · have : ek ≠ k' := by rw [h1]; exact h2
        simp [lookupEntry, h2, this]
    · rw [setEntry, if_neg h1]
      by_cases h2 : ek = k'
      · have : k ≠ k' := by rw [← h2]; exact fun hh => h1 hh.symm
        simp [lookupEntry, h2, this]
      · simp [lookupEntry, h2, ih]

theorem lookup_applyWrites_none :
    ∀ (ws : List (Nat × Nat × Int)) (q : List ((Nat × Nat) × Int)) (k : Nat × Nat),
      lastWrite ws k = none →
      lookupEntry (applyWrites q ws) k = lookupEntry q k := by
  intro ws
  induction ws with
  | nil => intro q k _; rfl
  | cons t ws ih =>
    intro q k h
    rw [lastWrite] at h
    cases hl : lastWrite ws k with
    | some w => rw [hl] at h; simp at h
    | none =>
      rw [hl] at h
      have hk : quadKey t.1 t.2.1 ≠ k := by
        intro hh; rw [if_pos hh] at h; simp at h
      rw [applyWrites, List.foldl_cons]
      have := ih (setEntry q (quadKey t.1 t.2.1) t.2.2) k hl
      rw [applyWrites] at this
      rw [this, lookup_setEntry, if_neg hk]

theorem lastWrite_some_spec :
    ∀ (ws : List (Nat × Nat × Int)) (k : Nat × Nat) (w : Int),
      lastWrite ws k = some w →
      ∃ t ∈ ws, quadKey t.1 t.2.1 = k ∧ t.2.2 = w := by
  intro ws
  induction ws with
  | nil => intro k w h; simp [lastWrite] at h
  | cons t ws ih =>
    intro k w h
    rw [lastWrite] at h
    cases hl : lastWrite ws k with
    | some w' =>
      rw [hl] at h
      obtain ⟨t', ht', hk', hw'⟩ := ih k w' hl
      exact ⟨t', by simp [ht'], hk', by simp at h; rw [hw', h]⟩
    | none =>
      rw [hl] at h
      by_cases hk : quadKey t.1 t.2.1 = k
      · rw [if_pos hk] at h
        exact ⟨t, by simp, hk, by simpa using h⟩
      · rw [if_neg hk] at h; simp at h

theorem lookup_applyWrites_some :
    ∀ (ws : List (Nat × Nat × Int)) (q : List ((Nat × Nat) × Int))
      (k : Nat × Nat) (w : Int),
      lastWrite ws k = some w →
      lookupEntry (applyWrites q ws) k = some w := by
  intro ws
  induction ws with
  | nil => intro q k w h; simp [lastWrite] at h
  | cons t ws ih =>
    intro q k w h
    rw [lastWrite] at h
    rw [applyWrites, List.foldl_cons]
    cases hl : lastWrite ws k with
    | some w' =>
      rw [hl] at h
      simp at h
      have := ih (setEntry q (quadKey t.1 t.2.1) t.2.2) k w' hl
      rw [applyWrites] at this
      rw [this, h]
    | none =>
      rw [hl] at h
      by_cases hk : quadKey t.1 t.2.1 = k
      · rw [if_pos hk] at h
        have hnone := lookup_applyWrites_none ws
          (setEntry q (quadKey t.1 t.2.1) t.2.2) k hl
        rw [applyWrites] at hnone
        rw [hnone, lookup_setEntry, if_pos hk]
        exact h
      · rw [if_neg hk] at h; simp at h

theorem lastWrite_none_spec :
    ∀ (ws : List (Nat × Nat × Int)) (k : Nat × Nat),
      lastWrite ws k = none → ∀ t ∈ ws, quadKey t.1 t.2.1 ≠ k := by
  intro ws
  induction ws with
  | nil => intro k _ t ht; simp at ht
  | cons t' ws ih =>
    intro k h t ht
    rw [lastWrite] at h
    cases hl : lastWrite ws k with
    | some w => rw [hl] at h; simp at h
    | none =>
      rw [hl] at h
      rcases List.mem_cons.mp ht with rfl | hmem
      · intro hk; rw [if_pos hk] at h; simp at h
      · exact ih k hl t hmem

theorem lastWrite_of_all
    (ws : List (Nat × Nat × Int)) (k : Nat × Nat) (w : Int)
    (hex : ∃ t ∈ ws, quadKey t.1 t.2.1 = k)
    (hall : ∀ t ∈ ws, quadKey t.1 t.2.1 = k → t.2.2 = w) :
    lastWrite ws k = some w := by
  cases hl : lastWrite ws k with
  | some w' =>
    obtain ⟨t, ht, hk, hw⟩ := lastWrite_some_spec ws k w' hl
    rw [← hw, hall t ht hk]
  | none =>
    obtain ⟨t, ht, hk⟩ := hex
    exact absurd hk (lastWrite_none_spec ws k hl t ht)

theorem foldlM_set_quadratic_ok :
    ∀ (ws : List (Nat × Nat × Int)) (b : Bqm),
      (∀ t ∈ ws, t.1 ≠ t.2.1) →
      ws.foldlM (fun b t => set_quadratic b t.1 t.2.1 t.2.2) b =
        .ok ⟨b.vars, applyWrites b.quadratic ws⟩ := by
  intro ws
  induction ws with
  | nil => intro b _; rfl
  | cons t ws ih =>
    intro b h
    have hne : t.1 ≠ t.2.1 := h t (by simp)
    rw [List.foldlM_cons, set_quadratic, if_neg hne]
    have := ih { b with quadratic := setEntry b.quadratic (quadKey t.1 t.2.1) t.2.2 }
      (fun t' ht' => h t' (by simp [ht']))
    simpa [applyWrites] using this

theorem mem_quadWrites {L : Nat} {t : Nat × Nat × Int} :
    t ∈ quadWrites L ↔
      ∃ x, x < L ∧ ∃ y, y < L ∧
        (t = (x * L + y, x * L + ((y + 1) % L),
              if (x + y) % 2 = 1 then (1 : Int) else -1) ∨
         (x < L - 1 ∧ t = (x * L + y, (x + 1) * L + y, (1 : Int)))) := by
  simp only [quadWrites, List.mem_flatMap, List.mem_range, List.mem_cons]
  constructor
  · rintro ⟨x, hx, y, hy, h | h⟩
    · exact ⟨x, hx, y, hy, Or.inl h⟩
    · by_cases hx1 : x < L - 1
      · rw [if_pos hx1] at h
        simp only [List.mem_singleton] at h
        exact ⟨x, hx, y, hy, Or.inr ⟨hx1, h⟩⟩
      · rw [if_neg hx1] at h; simp at h
  · rintro ⟨x, hx, y, hy, h | ⟨hx1, h⟩⟩
    · exact ⟨x, hx, y, hy, Or.inl h⟩
    · exact ⟨x, hx, y, hy, Or.inr (by rw [if_pos hx1]; simp [h])⟩

theorem grid_inj {L x y x' y' : Nat} (hy : y < L) (hy' : y' < L)
    (h : x * L + y = x' * L + y') : x = x' ∧ y = y' := by
  have hL : 0 < L := by omega
  have hdiv : ∀ a b : Nat, b < L → (a * L + b) / L = a := by
    intro a b hb
    rw [Nat.mul_comm, Nat.mul_add_div hL, Nat.div_eq_of_lt hb]
    omega
  have hx : x = x' := by
    have h1 := hdiv x y hy
    have h2 := hdiv x' y' hy'
    rw [← h1, ← h2, h]
  constructor
  · exact hx
  · rw [hx] at h; omega

theorem quadKey_eq {a b c d : Nat} (h : quadKey a b = quadKey c d) :
    (a = c ∧ b = d) ∨ (a = d ∧ b = c) := by
  rw [quadKey, quadKey, Prod.mk.injEq] at h
  omega

theorem succ_mul_L (x L : Nat) : (x + 1) * L = x * L + L := Nat.succ_mul x L

theorem cyc_key_ne_vert_key {L x y x' y' : Nat} (hy : y < L) (hy' : y' < L) :
    quadKey (x * L + y) (x * L + ((y + 1) % L)) ≠
      quadKey (x' * L + y') ((x' + 1) * L + y') := by
  intro h
  have hL : 0 < L := by omega
  have hz : (y + 1) % L < L := Nat.mod_lt _ hL
  have hsucc := succ_mul_L x' L
  rcases quadKey_eq h with ⟨h1, h2⟩ | ⟨h1, h2⟩
  · obtain ⟨hx, hyy⟩ := grid_inj hy hy' h1
    rw [hsucc, hx] at h2
    omega
  · obtain ⟨hx, hyy⟩ := grid_inj hz hy' h2
    rw [hsucc, hx] at h1
    omega

theorem no_two_cycle {L y y' : Nat} (hL : 3 ≤ L) (hy : y < L)
    (h1 : y = (y' + 1) % L) (h2 : y' = (y + 1) % L) : False := by
  by_cases hcase : y + 1 < L
  · rw [Nat.mod_eq_of_lt hcase] at h2
    subst h2
    by_cases h2case : y + 1 + 1 < L
    · rw [Nat.mod_eq_of_lt h2case] at h1; omega
    · have hL2 : y + 1 + 1 = L := by omega
      rw [hL2, Nat.mod_self] at h1
      omega
  · have hyL : y + 1 = L := by omega
    rw [hyL, Nat.mod_self] at h2
    subst h2
    rw [Nat.mod_eq_of_lt (by omega : 0 + 1 < L)] at h1
    omega

theorem cyc_key_inj {L x y x' y' : Nat} (hL : 3 ≤ L) (hy : y < L) (hy' : y' < L)
    (h : quadKey (x * L + y) (x * L + ((y + 1) % L)) =
         quadKey (x' * L + y') (x' * L + ((y' + 1) % L))) :
    x = x' ∧ y = y' := by
  have hL0 : 0 < L := by omega
  have hz : (y + 1) % L < L := Nat.mod_lt _ hL0
  have hz' : (y' + 1) % L < L := Nat.mod_lt _ hL0
  rcases quadKey_eq h with ⟨h1, h2⟩ | ⟨h1, h2⟩
  · exact grid_inj hy hy' h1
  · obtain ⟨hx, hyy⟩ := grid_inj hy hz' h1
    obtain ⟨hx2, hyy2⟩ := grid_inj hz hy' h2
    exact (no_two_cycle hL hy hyy hyy2.symm).elim

theorem noself_quadWrites {L : Nat} (hL : 2 ≤ L) :
    ∀ t ∈ quadWrites L, t.1 ≠ t.2.1 := by
  intro t ht
  rw [mem_quadWrites] at ht
  obtain ⟨x, hx, y, hy, h | ⟨hx1, h⟩⟩ := ht
  · subst h
    simp only [ne_eq, Nat.add_right_cancel_iff]
    intro hcontra
    by_cases hcase : y + 1 < L
    · rw [Nat.mod_eq_of_lt hcase] at hcontra; omega
    · have : y + 1 = L := by omega
      rw [this, Nat.mod_self] at hcontra
      omega
  · subst h
    simp only [ne_eq]
    rw [succ_mul_L]
    omega

/-- The quadratic bias that survives for the cyclic-direction pair of
`(x, y)` when `L ≥ 3`: its single write, whose sign is the parity of
`x + y`. -/
theorem cyclic_weight (L x y : Nat) (hL : 3 ≤ L) (hx : x < L) (hy : y < L) :
    ∃ bqm, buildBqm L = .ok bqm ∧
      get_quadratic bqm (x * L + y) (x * L + ((y + 1) % L)) =
        some (if (x + y) % 2 = 1 then 1 else -1) := by
  have hfold := foldlM_set_quadratic_ok (quadWrites L) ⟨gridVars L, []⟩
    (noself_quadWrites (by omega))
  refine ⟨_, hfold, ?_⟩
  rw [get_quadratic]
  apply lookup_applyWrites_some
  apply lastWrite_of_all
  · refine ⟨(x * L + y, x * L + ((y + 1) % L),
      if (x + y) % 2 = 1 then (1 : Int) else -1),
      mem_quadWrites.mpr ⟨x, hx, y, hy, Or.inl rfl⟩, rfl⟩
  · intro t ht hk
    rw [mem_quadWrites] at ht
    obtain ⟨x', hx', y', hy', h | ⟨hx1, h⟩⟩ := ht
    · subst h
      obtain ⟨hxx, hyy⟩ := cyc_key_inj hL hy' hy hk
      rw [hxx, hyy]
    · subst h
      exact absurd hk.symm (cyc_key_ne_vert_key hy hy')

/-- C2 (amended): constructing the logical graph from `L` is
deterministic; for every `L ≥ 3` the cyclic-direction edge incident to
node `x*L+y` has weight `-1` when `(x+y)` is even and `+1` when odd; for
`L = 2` the nodes are `{0,1,2,3}` as claimed, but the cyclic pair `{0,1}`
is written twice (the `(x,y) = (0,1)` iteration overwrites the
`(x,y) = (0,0)` one because `(1+1) % 2 = 0`), so the edge between node 0
and node 1 has weight `+1`, not `-1`. -/
theorem C2_logical_graph_weights :
    (∀ L : Nat, buildBqm L = buildBqm L) ∧
    (∀ L, 3 ≤ L → ∀ x, x < L → ∀ y, y < L →
      ∃ bqm, buildBqm L = .ok bqm ∧
        get_quadratic bqm (x * L + y) (x * L + ((y + 1) % L)) =
          some (if (x + y) % 2 = 1 then 1 else -1)) ∧
    (buildBqm 2 = .ok bqm2 ∧ bqm2.vars = [0, 1, 2, 3] ∧
      get_quadratic bqm2 0 1 = some 1) :=
  ⟨fun _ => rfl,
   fun L hL x hx y hy => cyclic_weight L x y hL hx hy,
   by decide⟩

theorem C2_witness :
    ((3 : Nat) ≤ 3 ∧ (0 : Nat) < 3 ∧ (1 : Nat) < 3) ∧
    (∃ bqm, buildBqm 3 = .ok bqm ∧
      get_quadratic bqm (0 * 3 + 1) (0 * 3 + ((1 + 1) % 3)) =
        some (if (0 + 1) % 2 = 1 then 1 else -1)) :=
  ⟨⟨by decide, by decide, by decide⟩,
   C2_logical_graph_weights.2.1 3 (by decide) 0 (by decide) 1 (by decide)⟩

/-- C2 (counterexample to the claim as stated): for `L = 2`, node 0 is
`(x,y) = (0,0)` with `x + y` even, so the claim predicts weight `-1` for
the edge between node 0 and node 1; the code's surviving bias for that
edge is `+1`. -/
theorem C2_counterexample :
    buildBqm 2 = .ok bqm2 ∧ get_quadratic bqm2 0 1 = some 1 ∧
      get_quadratic bqm2 0 1 ≠ some (-1) := by decide
